import Mathlib

/-!
Verification of the gobenchmark worker pool, statistics aggregator,
benchmark driver counters and HTTP request option layer.

The Go sources are shallowly embedded: the queue manipulations of
gopool (Do / routine) become a step relation on an explicit state, the
pure counter and extrema updates of stats.go become Lean functions, the
control flow of the benchmark work function becomes a function from its
branch conditions to the counter increments it performs, and the byte
level helpers of the request layer (CaseCompare, HeadersOption, the URL
guard of Request.Do) become functions on byte lists.
-/

namespace Gobenchmark

/-! ## Worker pool queue (gopool: routine / Do)

The queue is `pool.Queue`, a doubly linked list protected by the mutex
`pool.Cond.L`.  `Do` appends a job at the tail (`PushBack`) while
holding the mutex; a worker removes only the front element (`Front` /
`Remove`) while holding the mutex.  Because both operations are
serialized by the single mutex, the concurrent history of the queue is
a sequence of atomic enqueue and dequeue steps, which is what the step
relation below captures.  Jobs are represented by their ids. -/

/-- State of a pool history: the ids submitted so far in program order
(`enqueued`), the current queue contents front first (`queue`), and the
ids handed to workers in dequeue order (`dequeued`). -/
structure PoolState where
  enqueued : List Nat
  queue : List Nat
  dequeued : List Nat

/-- Atomic queue operations of gopool, each performed under the single
queue mutex: `enqueue` is the `PushBack` in `Do`, `dequeue` is the
`Front` plus `Remove` pair in `routine` (a worker only ever removes the
head, and only when the queue is non-empty thanks to the wait loop). -/
inductive PoolStep : PoolState → PoolState → Prop where
  | enqueue (s : PoolState) (jid : Nat) :
      PoolStep s ⟨s.enqueued ++ [jid], s.queue ++ [jid], s.dequeued⟩
  | dequeue (s : PoolState) (jid : Nat) (rest : List Nat)
      (h : s.queue = jid :: rest) :
      PoolStep s ⟨s.enqueued, rest, s.dequeued ++ [jid]⟩

/-- Pool histories reachable from the empty queue created by NewGoPool. -/
inductive PoolReach : PoolState → Prop where
  | init : PoolReach ⟨[], [], []⟩
  | step {s t : PoolState} : PoolReach s → PoolStep s t → PoolReach t

/-- Queue invariant: the submission sequence is exactly the dequeued
sequence followed by the current queue contents. -/
theorem poolReach_eq (s : PoolState) (h : PoolReach s) :
    s.enqueued = s.dequeued ++ s.queue := by
  induction h with
  | init => rfl
  | step _ hstep ih =>
    cases hstep with
    | enqueue jid =>
      simp only [ih, List.append_assoc]
    | dequeue jid rest hq =>
      simp only [ih, hq, List.append_assoc, List.cons_append, List.nil_append]

/-- C1: work items submitted via Do to the same pool are dequeued by
workers in submission order (FIFO).  In every reachable pool history
the enqueue sequence equals the dequeue sequence followed by the
current queue, hence the first `k` submitted ids, in order, are exactly
the `k` dequeued ids, in order: the item submitted first is dequeued
first. -/
theorem dequeue_order_eq_enqueue_order (s : PoolState) (h : PoolReach s) :
    s.enqueued = s.dequeued ++ s.queue ∧
    s.enqueued.take s.dequeued.length = s.dequeued := by
  have hinv := poolReach_eq s h
  refine ⟨hinv, ?_⟩
  rw [hinv]
  exact List.take_left s.dequeued s.queue

/-- Concrete reachable history: submit ids 1 then 2, then one worker
dequeues; the dequeued id is 1, the first one submitted. -/
def demoState : PoolState := ⟨[1, 2], [2], [1]⟩

theorem dequeue_order_eq_enqueue_order_witness :
    demoState.enqueued = demoState.dequeued ++ demoState.queue ∧
    demoState.enqueued.take demoState.dequeued.length = demoState.dequeued :=
  dequeue_order_eq_enqueue_order demoState
    (PoolReach.step
      (PoolReach.step
        (PoolReach.step PoolReach.init (PoolStep.enqueue ⟨[], [], []⟩ 1))
        (PoolStep.enqueue ⟨[1], [1], []⟩ 2))
      (PoolStep.dequeue ⟨[1, 2], [1, 2], []⟩ 1 [2] rfl))

/-! ## Work items (gopool: Job, Job.Init, the worker send, JobPool.Put)

A Job carries an id, a work function (variadic in Go, a function from
the argument list here), the arguments, and the result channel `pipe`
(`make(chan interface{}, 1)`).  The channel is modelled by its buffer
contents, a list that starts empty; the single worker send
`job.pipe <- job.fun(job.args...)` appends one value. -/

/-- Work item of gopool, over an arbitrary value type. -/
structure Job (α : Type) where
  id : Int
  fn : List α → α
  args : List α
  pipe : List α

/-- Capacity of the result channel created by Job.Init
(`make(chan interface{}, 1)`). -/
def pipeCapacity : Nat := 1

/-- Job.Init from gopool: overwrites id, function and arguments, and
installs a fresh empty result channel.  The previous contents of the
(possibly recycled) job are discarded entirely. -/
def Job.Init {α : Type} (j : Job α) (jid : Int) (f : List α → α)
    (as : List α) : Job α :=
  { id := jid, fn := f, args := as, pipe := [] }

/-- Body of the worker loop after dequeuing a job
(`job.pipe <- job.fun(job.args...)`): the function is applied to the
stored arguments once and the single result is sent on the job's
channel. -/
def routineProcess {α : Type} (j : Job α) : Job α :=
  { j with pipe := j.pipe ++ [j.fn j.args] }

/-- Recycling step of the worker loop (`pool.JobPool.Put(job)`): the
job is returned to the free list as is; no field is touched between the
result send and the Put. -/
def routineRecycle {α : Type} (j : Job α) : Job α := j

/-- C3: a submission initializes the work item with a fresh empty
capacity-one result channel, and processing by a worker applies the
stored function to the stored arguments and places exactly that one
result value on the channel; in particular submitting the identity
function (head of the argument list) with argument `a` yields exactly
`[a]` on the channel. -/
theorem do_sends_exactly_one_result {α : Type} (j : Job α) (jid : Int)
    (f : List α → α) (as : List α) (a : α) :
    (Job.Init j jid f as).pipe = [] ∧
    (routineProcess (Job.Init j jid f as)).pipe = [f as] ∧
    (routineProcess (Job.Init j jid f as)).pipe.length = pipeCapacity ∧
    (routineProcess (Job.Init j jid (fun l => l.headD a) [a])).pipe = [a] :=
  ⟨rfl, rfl, rfl, rfl⟩

/-! ## Work item recycling (C8)

The spec states that a recycled work item is cleared of its transient
fields before returning to the free list.  In the source the worker
performs `pool.JobPool.Put(job)` directly after the result send: no
field is cleared.  The stale id, arguments, result channel (and
function reference, which the embedding cannot compare against nil) all
remain stored while the item sits in the free list; they are only
overwritten by the next Job.Init after the item is drawn again. -/

/-- Spec notion of a cleared work item, on the fields the embedding can
compare against the Go zero value: id 0, no arguments, no result
channel contents. -/
def JobCleared {α : Type} (j : Job α) : Prop :=
  j.id = 0 ∧ j.args = [] ∧ j.pipe = []

/-- Concrete processed job about to be recycled: id 5, argument list
[3], result 3 sent on its channel. -/
def staleJob : Job Nat :=
  routineProcess (Job.Init ⟨0, fun l => l.headD 0, [], []⟩ 5
    (fun l => l.headD 0) [3])

/-- C8 counterexample: the job put back on the free list by the worker
still carries its id, arguments and channel: nothing is cleared. -/
theorem recycle_does_not_clear :
    (routineRecycle staleJob).id = 5 ∧
    (routineRecycle staleJob).args = [3] ∧
    (routineRecycle staleJob).pipe = [3] ∧
    ¬ JobCleared (routineRecycle staleJob) := by
  refine ⟨rfl, rfl, rfl, fun h => ?_⟩
  have h1 : (routineRecycle staleJob).id = 5 := rfl
  rw [h.1] at h1
  exact absurd h1 (by decide)

/-- C8 amended: recycling returns the work item to the free list with
all fields unchanged (nothing is cleared); the stale fields are fully
overwritten, and a fresh empty result channel installed, by Job.Init
when the item is next drawn for a submission. -/
theorem recycle_keeps_fields_init_overwrites {α : Type} (j : Job α)
    (jid : Int) (f : List α → α) (as : List α) :
    routineRecycle j = j ∧
    Job.Init j jid f as = { id := jid, fn := f, args := as, pipe := [] } :=
  ⟨rfl, rfl⟩

/-! ## Pool construction (NewGoPool)

NewGoPool allocates the pool with an empty queue and starts `size`
worker goroutines with `for i := 0; i < size; i++`.  There is no error
path: the function always returns a non-nil pool, also for sizes that
are zero or negative, in which case the loop simply starts no worker. -/

/-- Pool object as built by NewGoPool: last assigned id, the size
argument as stored in PoolSize, the queue contents, and the number of
worker goroutines started by the construction loop (the Cond and
JobPool fields are the synchronization primitives modelled above). -/
structure GoPool where
  lastID : Int
  poolSize : Int
  queue : List Nat
  workers : Nat

/-- NewGoPool from gopool: stores the size verbatim, creates an empty
queue, and starts one worker per loop iteration, that is max(size, 0)
workers. -/
def NewGoPool (size : Int) : GoPool :=
  { lastID := 0, poolSize := size, queue := [], workers := size.toNat }

/-- Result of pool construction.  The Go function has no failure path
at all (it always returns a non-nil pool pointer), so the result is
always `some`. -/
def NewGoPoolResult (size : Int) : Option GoPool :=
  some (NewGoPool size)

/-- C2 counterexample: at size 0 the claim demands that construction
fail, but NewGoPool succeeds (there is no failure path in the code);
the returned pool merely has zero workers. -/
theorem newGoPool_zero_size_succeeds :
    ¬ ((NewGoPoolResult 0).isSome = true ↔ (0 : Int) > 0) ∧
    (NewGoPool 0).workers = 0 := by
  constructor
  · intro h
    exact absurd (h.mp rfl) (by decide)
  · rfl

/-- C2 amended: pool construction never fails; for every size it
returns a pool with an empty queue and max(size, 0) workers, so for
every size greater than 0 exactly size workers, and for size at most 0
a pool with no workers at all (submitted jobs would never be
processed). -/
theorem newGoPool_never_fails (size : Int) :
    NewGoPoolResult size = some (NewGoPool size) ∧
    (NewGoPool size).queue = [] ∧
    (NewGoPool size).workers = size.toNat ∧
    (0 < size → ((NewGoPool size).workers : Int) = size) := by
  refine ⟨rfl, rfl, rfl, fun h => ?_⟩
  simp only [NewGoPool]
  exact Int.toNat_of_nonneg (le_of_lt h)

theorem newGoPool_never_fails_witness :
    ((NewGoPool 3).workers : Int) = 3 :=
  (newGoPool_never_fails 3).2.2.2 (by decide)

/-! ## Benchmark work function counters (benchmark.go: benchmark)

The work function takes its branch conditions as input (how many
params were passed, which pointers are nil, what the script hook
returned, whether the URL is empty, whether req.Do returned an error,
the recorded status, what the check hook returned) and the embedding
records which aggregator counters it increments and whether the HTTP
request was issued (req.Do reached).  The control flow follows
src/benchmark.go lines 49-139 exactly: every early return path
performs no counter update, and only the path past the URL check calls
req.Do. -/

/-- Branch conditions of one execution of the benchmark work function. -/
structure BenchInput where
  noParams : Bool
  wgNil : Bool
  simpleNil : Bool
  statsNil : Bool
  scriptOk : Bool
  urlEmpty : Bool
  doErr : Bool
  status : Int
  checkOk : Bool

/-- Counter increments performed by one execution, and whether req.Do
was invoked. -/
structure BenchEffect where
  success : Nat
  failure : Nat
  totalReqs : Nat
  issued : Bool

/-- Control flow of the benchmark work function: early returns for
missing params, nil WaitGroup, nil Simple or Stats, a false script
request() hook, and an empty URL, all without touching any counter;
then AddTotalReqs, AddFailure when req.Do errs or the status is not
200, otherwise AddSuccess or AddFailure according to the check()
hook. -/
def benchmark (c : BenchInput) : BenchEffect :=
  if c.noParams then ⟨0, 0, 0, false⟩
  else if c.wgNil then ⟨0, 0, 0, false⟩
  else if c.simpleNil || c.statsNil then ⟨0, 0, 0, false⟩
  else if !c.scriptOk then ⟨0, 0, 0, false⟩
  else if c.urlEmpty then ⟨0, 0, 0, false⟩
  else if c.doErr || c.status ≠ 200 then ⟨0, 1, 1, true⟩
  else if c.checkOk then ⟨1, 0, 1, true⟩
  else ⟨0, 1, 1, true⟩

/-- Aggregator totals over a whole batch. -/
structure Totals where
  success : Nat
  failure : Nat
  totalReqs : Nat

/-- Adds the increments of one execution to the aggregator. -/
def addEffect (t : Totals) (e : BenchEffect) : Totals :=
  ⟨t.success + e.success, t.failure + e.failure, t.totalReqs + e.totalReqs⟩

/-- Aggregator contents after the barrier has quiesced: all submitted
executions have applied their increments. -/
def runBatch (cs : List BenchInput) : Totals :=
  cs.foldl (fun t c => addEffect t (benchmark c)) ⟨0, 0, 0⟩

/-- Per-execution balance of the work function counters. -/
theorem benchmark_balance (c : BenchInput) :
    (benchmark c).success + (benchmark c).failure = (benchmark c).totalReqs ∧
    (benchmark c).totalReqs ≤ 1 := by
  unfold benchmark
  repeat' split
  all_goals exact ⟨rfl, by decide⟩

/-- Fold lemma: a balanced accumulator stays balanced. -/
theorem runBatch_aux (cs : List BenchInput) (t : Totals)
    (h : t.success + t.failure = t.totalReqs) :
    (cs.foldl (fun t c => addEffect t (benchmark c)) t).success +
      (cs.foldl (fun t c => addEffect t (benchmark c)) t).failure =
      (cs.foldl (fun t c => addEffect t (benchmark c)) t).totalReqs := by
  induction cs generalizing t with
  | nil => exact h
  | cons c cs ih =>
    refine ih (addEffect t (benchmark c)) ?_
    have hb := (benchmark_balance c).1
    simp only [addEffect]
    omega

/-- C4: after the barrier reaches zero the aggregator satisfies
success + failure = totalReqs, because every execution of the work
function that increments totalReqs (it increments it at most once)
also increments exactly one of success and failure, and the early
return paths increment none of the three. -/
theorem success_plus_failure_eq_totalReqs (cs : List BenchInput) :
    (runBatch cs).success + (runBatch cs).failure = (runBatch cs).totalReqs ∧
    ∀ c : BenchInput,
      (benchmark c).success + (benchmark c).failure =
        (benchmark c).totalReqs ∧
      (benchmark c).totalReqs ≤ 1 :=
  ⟨runBatch_aux cs ⟨0, 0, 0⟩ rfl, fun c => benchmark_balance c⟩

/-! ## Failure counting when the request() hook rejects (C6)

The spec states that a false return from the script request() hook
makes the worker record a failure.  In the source the work function
logs and returns immediately: the HTTP request is indeed not issued,
but no counter at all is incremented, failure included. -/

/-- Execution whose only deviation is the request() hook returning
false. -/
def scriptRejectInput : BenchInput :=
  { noParams := false, wgNil := false, simpleNil := false,
    statsNil := false, scriptOk := false, urlEmpty := false,
    doErr := false, status := 200, checkOk := true }

/-- C6 counterexample: with the request() hook returning false the
work function increments no failure (the claim demands an increment);
the request is indeed not issued. -/
theorem script_false_records_no_failure :
    scriptRejectInput.scriptOk = false ∧
    ¬ 0 < (benchmark scriptRejectInput).failure ∧
    (benchmark scriptRejectInput).issued = false := by decide

/-- C6 amended: when the script request() hook returns false the work
function logs an error and returns without issuing the HTTP request
and without incrementing any counter; in particular failure is not
incremented. -/
theorem script_false_no_counters (c : BenchInput)
    (h1 : c.noParams = false) (h2 : c.wgNil = false)
    (h3 : c.simpleNil = false) (h4 : c.statsNil = false)
    (h5 : c.scriptOk = false) :
    benchmark c = ⟨0, 0, 0, false⟩ := by
  simp [benchmark, h1, h2, h3, h4, h5]

theorem script_false_no_counters_witness :
    benchmark scriptRejectInput = ⟨0, 0, 0, false⟩ :=
  script_false_no_counters scriptRejectInput rfl rfl rfl rfl rfl

/-! ## Request elapsed extrema (stats.go: NewStats, UpdateReqElapsed)

UpdateReqElapsed runs under the elapsed mutex, so a concurrent history
is a sequence of atomic updates, modelled as a fold.  The int64 fields
are modelled as Int; only comparisons occur, so overflow plays no
role. -/

/-- Extrema fields of Stats.  NewStats leaves both at the zero value;
zero is the sentinel meaning the minimum is unset. -/
structure ElapsedStats where
  maxReqElapsed : Int
  minReqElapsed : Int

/-- Extrema fields of a freshly created Stats. -/
def NewStats : ElapsedStats := ⟨0, 0⟩

/-- UpdateReqElapsed from stats.go: raise the maximum when the new
elapsed value exceeds it; set the minimum when it is still the unset
sentinel 0 or the new value is smaller. -/
def UpdateReqElapsed (s : ElapsedStats) (elapsed : Int) : ElapsedStats :=
  let s1 :=
    if s.maxReqElapsed < elapsed then { s with maxReqElapsed := elapsed }
    else s
  if s1.minReqElapsed = 0 ∨ elapsed < s1.minReqElapsed then
    { s1 with minReqElapsed := elapsed }
  else s1

/-- Extrema after a finite sequence of serialized updates starting
from a fresh Stats. -/
def runUpdates (l : List Int) : ElapsedStats :=
  l.foldl UpdateReqElapsed NewStats

/-- Unfolding of UpdateReqElapsed: the sequential max then min update
written as one pair (the max update does not touch the min field). -/
theorem updateReqElapsed_eq (s : ElapsedStats) (v : Int) :
    UpdateReqElapsed s v =
      ⟨if s.maxReqElapsed < v then v else s.maxReqElapsed,
        if s.minReqElapsed = 0 ∨ v < s.minReqElapsed then v
        else s.minReqElapsed⟩ := by
  unfold UpdateReqElapsed
  by_cases h1 : s.maxReqElapsed < v <;>
    by_cases h2 : s.minReqElapsed = 0 ∨ v < s.minReqElapsed <;>
    simp [h1, h2]

/-- Once the minimum is set (nonzero, hence positive in every run with
positive updates), one update takes the pointwise max and min. -/
theorem updateReqElapsed_max_min (s : ElapsedStats) (v : Int)
    (hmin : 0 < s.minReqElapsed) :
    UpdateReqElapsed s v =
      ⟨max s.maxReqElapsed v, min s.minReqElapsed v⟩ := by
  rw [updateReqElapsed_eq]
  have hmax : (if s.maxReqElapsed < v then v else s.maxReqElapsed) =
      max s.maxReqElapsed v := by
    rcases lt_or_le s.maxReqElapsed v with h | h
    · rw [if_pos h, max_eq_right (le_of_lt h)]
    · rw [if_neg (not_lt.mpr h), max_eq_left h]
  have hminEq : (if s.minReqElapsed = 0 ∨ v < s.minReqElapsed then v
      else s.minReqElapsed) = min s.minReqElapsed v := by
    rcases lt_or_le v s.minReqElapsed with h | h
    · rw [if_pos (Or.inr h), min_eq_right (le_of_lt h)]
    · have hno : ¬ (s.minReqElapsed = 0 ∨ v < s.minReqElapsed) := by omega
      rw [if_neg hno, min_eq_left h]
  rw [hmax, hminEq]

/-- Folding further positive updates from a set state keeps the
extrema at the running maximum and minimum. -/
theorem foldl_update_extrema (l : List Int) (s : ElapsedStats)
    (hpos : ∀ v ∈ l, 0 < v) (hmin : 0 < s.minReqElapsed)
    (hmm : s.minReqElapsed ≤ s.maxReqElapsed) :
    ((l.foldl UpdateReqElapsed s).maxReqElapsed = s.maxReqElapsed ∨
      (l.foldl UpdateReqElapsed s).maxReqElapsed ∈ l) ∧
    s.maxReqElapsed ≤ (l.foldl UpdateReqElapsed s).maxReqElapsed ∧
    (∀ v ∈ l, v ≤ (l.foldl UpdateReqElapsed s).maxReqElapsed) ∧
    ((l.foldl UpdateReqElapsed s).minReqElapsed = s.minReqElapsed ∨
      (l.foldl UpdateReqElapsed s).minReqElapsed ∈ l) ∧
    (l.foldl UpdateReqElapsed s).minReqElapsed ≤ s.minReqElapsed ∧
    (∀ v ∈ l, (l.foldl UpdateReqElapsed s).minReqElapsed ≤ v) ∧
    0 < (l.foldl UpdateReqElapsed s).minReqElapsed := by
  induction l generalizing s with
  | nil =>
    exact ⟨Or.inl rfl, le_refl _, by simp, Or.inl rfl, le_refl _, by simp,
      hmin⟩
  | cons v t ih =>
    have hv : 0 < v := hpos v (by simp)
    have hstep : UpdateReqElapsed s v =
        ⟨max s.maxReqElapsed v, min s.minReqElapsed v⟩ :=
      updateReqElapsed_max_min s v hmin
    have hfold : (v :: t).foldl UpdateReqElapsed s =
        t.foldl UpdateReqElapsed ⟨max s.maxReqElapsed v, min s.minReqElapsed v⟩ := by
      simp [List.foldl_cons, hstep]
    rw [hfold]
    have hpt : ∀ w ∈ t, 0 < w := fun w hw => hpos w (by simp [hw])
    obtain ⟨m1, m2, m3, m4, m5, m6, m7⟩ :=
      ih ⟨max s.maxReqElapsed v, min s.minReqElapsed v⟩ hpt
        (by simp only [lt_min_iff]; exact ⟨hmin, hv⟩)
        (by
          simp only [min_le_iff, le_max_iff]
          left
          exact Or.inl hmm)
    set r := t.foldl UpdateReqElapsed
      (⟨max s.maxReqElapsed v, min s.minReqElapsed v⟩ : ElapsedStats) with hr
    refine ⟨?_, ?_, ?_, ?_, ?_, ?_, m7⟩
    · rcases m1 with h | h
      · rcases max_choice s.maxReqElapsed v with hc | hc
        · exact Or.inl (by rw [h, hc])
        · exact Or.inr (by simp [h, hc])
      · exact Or.inr (by simp [h])
    · exact le_trans (le_max_left _ _) m2
    · intro w hw
      rcases List.mem_cons.mp hw with hw | hw
      · subst hw
        exact le_trans (le_max_right _ _) m2
      · exact m3 w hw
    · rcases m4 with h | h
      · rcases min_choice s.minReqElapsed v with hc | hc
        · exact Or.inl (by rw [h, hc])
        · exact Or.inr (by simp [h, hc])
      · exact Or.inr (by simp [h])
    · exact le_trans m5 (min_le_left _ _)
    · intro w hw
      rcases List.mem_cons.mp hw with hw | hw
      · subst hw
        exact le_trans m5 (min_le_right _ _)
      · exact m6 w hw

/-- C5: after any nonempty finite sequence of UpdateReqElapsed calls
with positive arguments on a fresh Stats, maxReqElapsed is exactly the
maximum of the arguments and minReqElapsed exactly their minimum (the
min starts at the unset sentinel 0 and is replaced by the first
value). -/
theorem updateReqElapsed_extrema (l : List Int) (hne : l ≠ [])
    (hpos : ∀ v ∈ l, 0 < v) :
    ((runUpdates l).maxReqElapsed ∈ l ∧
      ∀ v ∈ l, v ≤ (runUpdates l).maxReqElapsed) ∧
    ((runUpdates l).minReqElapsed ∈ l ∧
      ∀ v ∈ l, (runUpdates l).minReqElapsed ≤ v) := by
  match l, hne with
  | v :: t, _ =>
    have hv : 0 < v := hpos v (by simp)
    have hfirst : UpdateReqElapsed NewStats v = ⟨v, v⟩ := by
      unfold UpdateReqElapsed NewStats
      simp only [hv, if_pos]
      simp
    have hfold : runUpdates (v :: t) =
        t.foldl UpdateReqElapsed ⟨v, v⟩ := by
      simp [runUpdates, List.foldl_cons, hfirst]
    have hpt : ∀ w ∈ t, 0 < w := fun w hw => hpos w (by simp [hw])
    obtain ⟨m1, m2, m3, m4, m5, m6, _⟩ :=
      foldl_update_extrema t ⟨v, v⟩ hpt hv (le_refl v)
    rw [hfold]
    refine ⟨⟨?_, ?_⟩, ?_, ?_⟩
    · rcases m1 with h | h
      · simp [h]
      · exact List.mem_cons_of_mem v h
    · intro w hw
      rcases List.mem_cons.mp hw with hw | hw
      · subst hw
        exact m2
      · exact m3 w hw
    · rcases m4 with h | h
      · simp [h]
      · exact List.mem_cons_of_mem v h
    · intro w hw
      rcases List.mem_cons.mp hw with hw | hw
      · subst hw
        exact m5
      · exact m6 w hw

theorem updateReqElapsed_extrema_witness :
    (runUpdates [2, 1, 3]).maxReqElapsed ∈ ([2, 1, 3] : List Int) ∧
    (runUpdates [2, 1, 3]).minReqElapsed ≤ 2 :=
  ⟨(updateReqElapsed_extrema [2, 1, 3] (by decide) (by decide)).1.1,
    (updateReqElapsed_extrema [2, 1, 3] (by decide) (by decide)).2.2 2
      (by decide)⟩

/-! ## Report formatter (benchmark.go: showBenchmarkResult)

Go integer division panics on a zero divisor, modelled by `goDiv`
returning none.  showBenchmarkResult clamps a local copy of totalReqs
to at least 1 (and likewise the derived totalSeconds), but the
Requests/sec line divides by the unclamped field
(`stats.totalPreReqs / stats.totalReqs / 1000000`).  The two float
divisions of the receive figures are omitted: their divisors are the
positive constants 1024^k and the clamped totalSeconds, and float
division cannot panic. -/

/-- Integer fields of Stats read by the formatter. -/
structure StatsSnap where
  success : Int
  failure : Int
  totalTimes : Int
  totalReqs : Int
  totalRecvBytes : Int
  totalPreReqs : Int

/-- Go integer division: none models the runtime panic on a zero
divisor. -/
def goDiv (a b : Int) : Option Int :=
  if b = 0 then none else some (a / b)

/-- Integer figures printed by the report. -/
structure Report where
  successRate : Int
  avgReqTime : Int
  reqPerSec : Int

/-- showBenchmarkResult from benchmark.go, restricted to its integer
divisions: the success rate and the average use the clamped local
totalReqs; the Requests/sec line divides by the raw stats.totalReqs
field. -/
def showBenchmarkResult (s : StatsSnap) : Option Report :=
  let totalReqs := if s.totalReqs = 0 then 1 else s.totalReqs
  (goDiv s.totalTimes 1000).bind fun ts0 =>
    let _totalSeconds := if ts0 = 0 then 1 else ts0
    (goDiv (s.success * 100) totalReqs).bind fun rate =>
      (goDiv s.totalTimes totalReqs).bind fun avg =>
        (goDiv s.totalPreReqs s.totalReqs).bind fun rps0 =>
          (goDiv rps0 1000000).bind fun rps =>
            some ⟨rate, avg, rps⟩

/-- Aggregator of an empty batch: no execution touched any counter. -/
def emptyBatchStats : StatsSnap := ⟨0, 0, 0, 0, 0, 0⟩

/-- C7: on an empty batch the formatter divides by zero.  The comment
in the source says the dividend is made nonzero, and totalReqs is
indeed clamped into a local variable, but the Requests/sec line
divides by the raw unclamped stats.totalReqs field, which is 0 for an
empty batch, so the formatter panics instead of printing an all-zero
report. -/
theorem showBenchmarkResult_empty_batch_divzero :
    showBenchmarkResult emptyBatchStats = none ∧
    emptyBatchStats.totalReqs = 0 := ⟨rfl, rfl⟩

/-! ## Request option layer (CaseCompare, HeadersOption, Request.Do)

Go strings are byte strings; they are embedded as lists of byte values
(Nat, with validity meaning every byte is below 256).  CaseCompare
works byte-wise: it shifts lowercase ASCII letters to uppercase with
`offset = 'a' - 'A'`, subtracts the folded bytes as uint8 (so the
`ret < 0` branch can never fire: an unsigned difference is never
negative, and any unequal pair yields `ret > 0`), and after the common
prefix returns the int difference of the lengths.  strings.ToLower on
the ASCII header values of interest is the byte-wise lowercase map. -/

/-- Go strings as lists of byte values. -/
abbrev ByteStr := List Nat

/-- Case folding of one byte as in the CaseCompare loop: lowercase
ASCII letters are shifted up by offset 32. -/
def foldUpper (c : Nat) : Nat :=
  if 97 ≤ c ∧ c ≤ 122 then c - 32 else c

/-- CaseCompare from the request layer.  The recursion consumes the
common prefix (the Go loop over the shorter length); once either
string runs out it returns the length difference of the full inputs,
which at that point equals the length difference of the remainders.
`ret` is the uint8 difference of the folded bytes. -/
def caseCompareGo : ByteStr → ByteStr → Int
  | [], d => -(d.length : Int)
  | c1 :: s, [] => ((c1 :: s).length : Int)
  | c1 :: s, c2 :: d =>
    let ret : Int := ((foldUpper c1 + 256 - foldUpper c2) % 256 : Nat)
    if 0 < ret then 1
    else if ret < 0 then -1
    else caseCompareGo s d

/-- CaseCompare(src, dst). -/
def caseCompare (src dst : ByteStr) : Int := caseCompareGo src dst

/-- Byte-wise ASCII lowering, the effect of strings.ToLower on the
byte strings considered here. -/
def toLowerB (s : ByteStr) : ByteStr :=
  s.map fun c => if 65 ≤ c ∧ c ≤ 90 then c + 32 else c

/-- Bytes of the string Content-Type. -/
def contentTypeBytes : ByteStr :=
  [67, 111, 110, 116, 101, 110, 116, 45, 84, 121, 112, 101]

/-- Option bundle fields manipulated by the header options: the header
map (iteration order made explicit as an association list) and the
derived content type. -/
structure Options where
  headers : List (ByteStr × ByteStr)
  contentType : ByteStr

/-- Options as initialized by NewRequest before the option closures
run: empty header map, empty content type. -/
def NewRequestOptions : Options :=
  { headers := [], contentType := [] }

/-- Go map assignment `opt.Headers[field] = value` on the association
list: replace the binding when the key is present, append otherwise. -/
def headerInsert (m : List (ByteStr × ByteStr)) (f v : ByteStr) :
    List (ByteStr × ByteStr) :=
  if m.any fun q => q.1 == f then
    m.map fun q => if q.1 = f then (f, v) else q
  else m ++ [(f, v)]

/-- Body of the HeadersOption loop for one header: store the header,
and when the content type is still empty and the field name compares
equal to Content-Type under CaseCompare, set the content type to the
lowercased value. -/
def applyHeaderEntry (o : Options) (p : ByteStr × ByteStr) : Options :=
  let o1 : Options := { o with headers := headerInsert o.headers p.1 p.2 }
  if o1.contentType = [] ∧ caseCompare p.1 contentTypeBytes = 0 then
    { o1 with contentType := toLowerB p.2 }
  else o1

/-- HeadersOption applied to an options bundle: iterate over the given
header map (a nil map is the empty list, for which the loop body never
runs). -/
def HeadersOption (hs : List (ByteStr × ByteStr)) (o : Options) : Options :=
  hs.foldl applyHeaderEntry o

/-! ## Request.Do URL guard (C10) -/

/-- Request state treated by the guard of Request.Do: the URL from the
options and the recorded status, zero until a response is received. -/
structure Request where
  url : ByteStr
  status : Int

/-- Error message of the URL guard in Request.Do. -/
def urlEmptyError : String := "request URL cannot be empty"

/-- Guard of Request.Do: every URL shorter than 7 bytes is rejected
with the error above before any client is drawn from the pool.  The
ok branch stands for the code past the guard, which performs the HTTP
transaction (network effects that are outside the embedding and
irrelevant to the guard). -/
def Request.Do (r : Request) : Request × Except String Unit :=
  if r.url.length < 7 then (r, Except.error urlEmptyError)
  else (r, Except.ok ())

/-- C10: Request.Do rejects every URL of fewer than 7 bytes with the
error whose text names only the empty URL; the request state is left
untouched (Status stays 0) and the transaction code is never
reached. -/
theorem requestDo_rejects_short_urls (r : Request)
    (h : r.url.length < 7) :
    Request.Do r = (r, Except.error urlEmptyError) ∧
    (Request.Do r).1.status = r.status ∧
    (Request.Do r).2 ≠ Except.ok () := by
  have hr : Request.Do r = (r, Except.error urlEmptyError) := by
    simp [Request.Do, h]
  refine ⟨hr, by rw [hr], by rw [hr]; intro hc; cases hc⟩

/-- Nonempty five-byte URL a.com: rejected exactly like the empty
one. -/
theorem requestDo_rejects_short_urls_witness :
    Request.Do ⟨[97, 46, 99, 111, 109], 0⟩ =
      (⟨[97, 46, 99, 111, 109], 0⟩, Except.error urlEmptyError) :=
  (requestDo_rejects_short_urls ⟨[97, 46, 99, 111, 109], 0⟩ (by decide)).1

/-! ## Content type derivation (C9) -/

/-- Case folding keeps byte values below 256. -/
theorem foldUpper_lt {c : Nat} (h : c < 256) : foldUpper c < 256 := by
  unfold foldUpper
  split <;> omega

/-- Characterization of the CaseCompare zero result on valid byte
strings: zero exactly when the two strings have equal length and equal
bytes after ASCII case folding.  The uint8 subtraction makes any
mismatch return 1 (the -1 branch is dead), but the zero case is
unaffected. -/
theorem caseCompareGo_eq_zero (s : ByteStr) :
    ∀ d : ByteStr, (∀ c ∈ s, c < 256) → (∀ c ∈ d, c < 256) →
      (caseCompareGo s d = 0 ↔ s.map foldUpper = d.map foldUpper) := by
  induction s with
  | nil =>
    intro d _ _
    cases d with
    | nil => simp [caseCompareGo]
    | cons c2 d =>
      simp only [caseCompareGo, List.map_nil, List.map_cons]
      constructor
      · intro h
        exfalso
        simp only [List.length_cons] at h
        push_cast at h
        omega
      · intro h
        cases h
  | cons c1 s ih =>
    intro d hs hd
    cases d with
    | nil =>
      simp only [caseCompareGo, List.map_nil, List.map_cons, List.length_cons]
      constructor
      · intro h
        exfalso
        push_cast at h
        omega
      · intro h
        cases h
    | cons c2 d =>
      have hc1 : foldUpper c1 < 256 := foldUpper_lt (hs c1 (by simp))
      have hc2 : foldUpper c2 < 256 := foldUpper_lt (hd c2 (by simp))
      have hs2 : ∀ c ∈ s, c < 256 := fun c hc => hs c (by simp [hc])
      have hd2 : ∀ c ∈ d, c < 256 := fun c hc => hd c (by simp [hc])
      by_cases he : foldUpper c1 = foldUpper c2
      · have hret : ((foldUpper c1 + 256 - foldUpper c2) % 256 : Nat) = 0 := by
          omega
        simp only [caseCompareGo, hret, List.map_cons]
        norm_num
        rw [ih d hs2 hd2]
        constructor
        · intro h
          exact ⟨he, h⟩
        · intro h
          exact h.2
      · have hret : 0 < ((foldUpper c1 + 256 - foldUpper c2) % 256 : Nat) := by
          omega
        simp only [caseCompareGo, List.map_cons]
        have hpos : (0 : Int) <
            (((foldUpper c1 + 256 - foldUpper c2) % 256 : Nat) : Int) := by
          exact_mod_cast hret
        rw [if_pos hpos]
        constructor
        · intro h
          cases h
        · intro h
          exact absurd (List.cons.injEq _ _ _ _ ▸ h).1 he

/-- Applying one header entry never erases a nonempty content type. -/
theorem applyHeaderEntry_keeps_ct (o : Options) (p : ByteStr × ByteStr)
    (h : o.contentType ≠ []) :
    (applyHeaderEntry o p).contentType = o.contentType := by
  simp [applyHeaderEntry, h]

/-- Folding any headers never erases a nonempty content type. -/
theorem foldl_keeps_ct (hs : List (ByteStr × ByteStr)) (o : Options)
    (h : o.contentType ≠ []) :
    (hs.foldl applyHeaderEntry o).contentType = o.contentType := by
  induction hs generalizing o with
  | nil => rfl
  | cons p t ih =>
    rw [List.foldl_cons]
    rw [ih (applyHeaderEntry o p) (by rw [applyHeaderEntry_keeps_ct o p h]; exact h)]
    exact applyHeaderEntry_keeps_ct o p h

/-- Folding headers none of which matches Content-Type keeps the
content type unchanged. -/
theorem foldl_no_match_ct (hs : List (ByteStr × ByteStr)) (o : Options)
    (h : ∀ p ∈ hs, caseCompare p.1 contentTypeBytes ≠ 0) :
    (hs.foldl applyHeaderEntry o).contentType = o.contentType := by
  induction hs generalizing o with
  | nil => rfl
  | cons p t ih =>
    have hp : caseCompare p.1 contentTypeBytes ≠ 0 := h p (by simp)
    have ht : ∀ q ∈ t, caseCompare q.1 contentTypeBytes ≠ 0 :=
      fun q hq => h q (by simp [hq])
    have happ : applyHeaderEntry o p =
        { o with headers := headerInsert o.headers p.1 p.2 } := by
      simp [applyHeaderEntry, hp]
    rw [List.foldl_cons, happ, ih _ ht]

/-- Folding headers that contain a Content-Type match, starting from an
empty content type, ends with the lowercased value of one of the
matching headers. -/
theorem foldl_match_ct (hs : List (ByteStr × ByteStr)) (o : Options)
    (hct : o.contentType = [])
    (hm : ∃ p ∈ hs, caseCompare p.1 contentTypeBytes = 0) :
    ∃ p ∈ hs, caseCompare p.1 contentTypeBytes = 0 ∧
      (hs.foldl applyHeaderEntry o).contentType = toLowerB p.2 := by
  induction hs generalizing o with
  | nil =>
    obtain ⟨p, hp, _⟩ := hm
    cases hp
  | cons p t ih =>
    rw [List.foldl_cons]
    by_cases hp : caseCompare p.1 contentTypeBytes = 0
    · have happ : applyHeaderEntry o p =
          { headers := headerInsert o.headers p.1 p.2,
            contentType := toLowerB p.2 } := by
        simp [applyHeaderEntry, hct, hp]
      rw [happ]
      by_cases hz : toLowerB p.2 = []
      · by_cases hrest : ∃ q ∈ t, caseCompare q.1 contentTypeBytes = 0
        · obtain ⟨q, hq, hqm, hqe⟩ :=
            ih { headers := headerInsert o.headers p.1 p.2,
                 contentType := toLowerB p.2 } hz hrest
          exact ⟨q, by simp [hq], hqm, hqe⟩
        · push_neg at hrest
          refine ⟨p, by simp, hp, ?_⟩
          rw [foldl_no_match_ct t _ hrest, hz]
      · refine ⟨p, by simp, hp, ?_⟩
        exact foldl_keeps_ct t _ hz
    · have happ : applyHeaderEntry o p =
          { o with headers := headerInsert o.headers p.1 p.2 } := by
        simp [applyHeaderEntry, hp]
      have hm2 : ∃ q ∈ t, caseCompare q.1 contentTypeBytes = 0 := by
        obtain ⟨q, hq, hqm⟩ := hm
        rcases List.mem_cons.mp hq with hq | hq
        · subst hq
          exact absurd hqm hp
        · exact ⟨q, hq, hqm⟩
      obtain ⟨q, hq, hqm, hqe⟩ :=
        ih (applyHeaderEntry o p) (by rw [happ]; exact hct) hm2
      exact ⟨q, by simp [hq], hqm, hqe⟩

/-- C9: for a header map passed to NewRequest via HeadersOption, a
header name matches Content-Type under CaseCompare exactly when the
two strings are equal after ASCII case folding; when a matching header
exists the resulting content type is the lowercased value of a
matching header, and when none exists the content type stays empty. -/
theorem headersOption_content_type (hs : List (ByteStr × ByteStr)) :
    (∀ s : ByteStr, (∀ c ∈ s, c < 256) →
      (caseCompare s contentTypeBytes = 0 ↔
        s.map foldUpper = contentTypeBytes.map foldUpper)) ∧
    ((∀ p ∈ hs, caseCompare p.1 contentTypeBytes ≠ 0) →
      (HeadersOption hs NewRequestOptions).contentType = []) ∧
    ((∃ p ∈ hs, caseCompare p.1 contentTypeBytes = 0) →
      ∃ p ∈ hs, caseCompare p.1 contentTypeBytes = 0 ∧
        (HeadersOption hs NewRequestOptions).contentType = toLowerB p.2) := by
  refine ⟨?_, ?_, ?_⟩
  · intro s hsv
    exact caseCompareGo_eq_zero s contentTypeBytes hsv (by decide)
  · intro h
    exact foldl_no_match_ct hs NewRequestOptions h
  · intro h
    exact foldl_match_ct hs NewRequestOptions rfl h

/-- Header map without any Content-Type entry: bytes of Accept and
text/html. -/
def demoNoCT : List (ByteStr × ByteStr) :=
  [([65, 99, 99, 101, 112, 116], [116, 101, 120, 116, 47, 104, 116, 109, 108])]

/-- Header map with the single entry content-TYPE : TEXT/Html, a
case-variant match of Content-Type. -/
def demoCT : List (ByteStr × ByteStr) :=
  [([99, 111, 110, 116, 101, 110, 116, 45, 84, 89, 80, 69],
    [84, 69, 88, 84, 47, 72, 116, 109, 108])]

theorem headersOption_content_type_witness :
    (HeadersOption demoNoCT NewRequestOptions).contentType = [] ∧
    (HeadersOption demoCT NewRequestOptions).contentType =
      [116, 101, 120, 116, 47, 104, 116, 109, 108] :=
  ⟨(headersOption_content_type demoNoCT).2.1 (by decide), by decide⟩

end Gobenchmark
